import Mathlib

/-!
Verification of the Sanaattori word-game core (guess evaluation, keyboard
aggregation, hard-mode constraints, and the game-round state machine)
against its natural-language specification.  The TypeScript sources are
shallowly embedded as executable Lean definitions: JS strings become
`String`/`List Char`, JS `Map` becomes an insertion-ordered association
list, the two evaluation passes become structural recursions, and the
React state updates become pure functions on a `GameState` record.
Case folding (`toLowerCase`/`toUpperCase` on the game's alphabet) is
modelled by `Char.toLower`/`Char.toUpper`.
-/

namespace Sanaattori

/-- The per-letter classification, from types/game.ts
(`LetterState = correct | present | absent | unknown`). -/
inductive LetterState where
  | correct
  | present
  | absent
  | unknown
deriving DecidableEq

/-- An evaluated letter, from types/game.ts (`Letter = \x7b char, state \x7d`). -/
structure Letter where
  char : Char
  state : LetterState
deriving DecidableEq

/-- A submitted guess with its evaluation, from types/game.ts. -/
structure Guess where
  word : String
  letters : List Letter
deriving DecidableEq

/-- The character list of a JS string after `toLowerCase()` and
`split(chars)`, as used throughout the evaluation code. -/
def lowerChars (s : String) : List Char :=
  s.toList.map Char.toLower

/-! ## Evaluator (evaluation.ts, `evaluateGuess`)

First pass: positionwise comparison marks `correct` letters and records
the consumed solution positions (`solutionUsed`).  Second pass: each
letter not yet `correct` scans the solution left-to-right for the first
unconsumed occurrence of its character; if found it is upgraded to
`present` and that solution position is consumed. -/

/-- First pass of `evaluateGuess`: `correct` where the guess matches the
solution at the same position, tentatively `absent` elsewhere
(out-of-range solution positions compare unequal, as in JS). -/
def pass1 : List Char → List Char → List Letter
  | [], _ => []
  | c :: g, [] => ⟨c, .absent⟩ :: pass1 g []
  | c :: g, d :: s => ⟨c, if c = d then .correct else .absent⟩ :: pass1 g s

/-- The `solutionUsed` flags after the first pass: position `i` of the
solution is consumed exactly when the guess matches it there. -/
def used1 : List Char → List Char → List Bool
  | _, [] => []
  | [], _ :: s => false :: used1 [] s
  | c :: g, d :: s => decide (c = d) :: used1 g s

/-- The inner loop of the second pass: consume the first unconsumed
solution position holding character `c`, returning the updated flags,
or `none` when no such position exists. -/
def useChar (c : Char) : List Char → List Bool → Option (List Bool)
  | [], _ => none
  | _ :: _, [] => none
  | d :: s, b :: u =>
    if b = false ∧ d = c then some (true :: u)
    else
      match useChar c s u with
      | some u2 => some (b :: u2)
      | none => none

/-- Second pass of `evaluateGuess`: letters already `correct` are kept;
every other letter is upgraded to `present` when `useChar` finds an
unconsumed solution occurrence of its character. -/
def pass2 : List Letter → List Char → List Bool → List Letter × List Bool
  | [], _, used => ([], used)
  | l :: rest, s, used =>
    if l.state = LetterState.correct then
      let r := pass2 rest s used
      (l :: r.1, r.2)
    else
      match useChar l.char s used with
      | some u2 =>
        let r := pass2 rest s u2
        (⟨l.char, LetterState.present⟩ :: r.1, r.2)
      | none =>
        let r := pass2 rest s used
        (l :: r.1, r.2)

/-- `evaluateGuess(guess, solution)` from evaluation.ts: lowercase both
words, run the two passes, return the per-letter classifications. -/
def evaluateGuess (guess solution : String) : List Letter :=
  let g := lowerChars guess
  let s := lowerChars solution
  (pass2 (pass1 g s) s (used1 g s)).1

/-- Whether a classification is Correct-or-Present. -/
def isCP : LetterState → Bool
  | .correct => true
  | .present => true
  | _ => false

/-- Number of result positions holding character `c` that are classified
Correct-or-Present. -/
def countCP (c : Char) : List Letter → Nat
  | [] => 0
  | l :: ls => (if l.char = c ∧ isCP l.state = true then 1 else 0) + countCP c ls

/-- Number of result positions classified Correct-or-Present (any char). -/
def countCPAll : List Letter → Nat
  | [] => 0
  | l :: ls => (if isCP l.state = true then 1 else 0) + countCPAll ls

/-- Number of result positions classified Absent. -/
def countAbsent : List Letter → Nat
  | [] => 0
  | l :: ls => (if l.state = LetterState.absent then 1 else 0) + countAbsent ls

/-- Number of occurrences of a character in a character list. -/
def countCh (c : Char) : List Char → Nat
  | [] => 0
  | d :: ds => (if d = c then 1 else 0) + countCh c ds

/-- Number of consumed solution positions holding character `c`. -/
def usedCount (c : Char) : List Char → List Bool → Nat
  | [], _ => 0
  | _ :: _, [] => 0
  | d :: s, b :: u => (if b = true ∧ d = c then 1 else 0) + usedCount c s u

lemma usedCount_le_countCh (c : Char) :
    ∀ (s : List Char) (u : List Bool), usedCount c s u ≤ countCh c s := by
  intro s
  induction s with
  | nil => intro u; simp [usedCount, countCh]
  | cons d s ih =>
    intro u
    cases u with
    | nil => simp only [usedCount]; omega
    | cons b u =>
      have h := ih u
      simp only [usedCount, countCh]
      by_cases hb : b = true ∧ d = c
      · rw [if_pos hb, if_pos hb.2]; omega
      · rw [if_neg hb]
        by_cases hd : d = c
        · rw [if_pos hd]; omega
        · rw [if_neg hd]; omega

lemma useChar_usedCount (c : Char) :
    ∀ (s : List Char) (u u2 : List Bool), useChar c s u = some u2 →
      ∀ c2 : Char,
        usedCount c2 s u2 = usedCount c2 s u + (if c = c2 then 1 else 0) := by
  intro s
  induction s with
  | nil => intro u u2 h; simp [useChar] at h
  | cons d s ih =>
    intro u u2 h c2
    cases u with
    | nil => simp [useChar] at h
    | cons b u =>
      by_cases hbd : b = false ∧ d = c
      · simp only [useChar, if_pos hbd] at h
        cases h
        obtain ⟨hb, hd⟩ := hbd
        subst hb; subst hd
        simp only [usedCount]
        by_cases hc : d = c2
        · simp only [hc]
          simp
          omega
        · simp [hc]
      · simp only [useChar, if_neg hbd] at h
        cases hrec : useChar c s u with
        | none => rw [hrec] at h; cases h
        | some u3 =>
          rw [hrec] at h
          cases h
          have := ih u u3 hrec c2
          simp only [usedCount]
          omega

lemma countCP_pass1_nil (c : Char) :
    ∀ g : List Char, countCP c (pass1 g []) = 0 := by
  intro g
  induction g with
  | nil => rfl
  | cons x g ih =>
    simp only [pass1, countCP, ih]
    simp [isCP]

lemma usedCount_used1_nil (c : Char) :
    ∀ s : List Char, usedCount c s (used1 [] s) = 0 := by
  intro s
  induction s with
  | nil => rfl
  | cons d s ih =>
    simp only [used1, usedCount, ih]
    simp

lemma countCP_pass1 (c : Char) :
    ∀ (g s : List Char), countCP c (pass1 g s) = usedCount c s (used1 g s) := by
  intro g
  induction g with
  | nil =>
    intro s
    rw [usedCount_used1_nil]
    rfl
  | cons x g ih =>
    intro s
    cases s with
    | nil =>
      rw [countCP_pass1_nil]
      rfl
    | cons d s =>
      simp only [pass1, used1, countCP, usedCount]
      rw [ih s]
      by_cases hxd : x = d
      · subst hxd
        simp only [if_pos rfl, decide_eq_true rfl]
        by_cases hc : x = c
        · rw [if_pos ⟨hc, rfl⟩, if_pos ⟨rfl, hc⟩]
        · rw [if_neg (by simp [hc]), if_neg (by simp [hc])]
      · rw [if_neg hxd]
        have h1 : ¬(x = c ∧ isCP LetterState.absent = true) := by simp [isCP]
        rw [if_neg h1, if_neg (by simp [hxd])]

lemma pass1_chars : ∀ (g s : List Char), (pass1 g s).map Letter.char = g := by
  intro g
  induction g with
  | nil => intro s; cases s <;> rfl
  | cons c g ih =>
    intro s
    cases s with
    | nil => simp only [pass1, List.map_cons, ih []]
    | cons d s2 => simp only [pass1, List.map_cons, ih s2]

lemma pass1_states : ∀ (g s : List Char), ∀ l ∈ pass1 g s,
    l.state = LetterState.correct ∨ l.state = LetterState.absent := by
  intro g
  induction g with
  | nil => intro s l hl; cases s <;> simp [pass1] at hl
  | cons c g ih =>
    intro s l hl
    cases s with
    | nil =>
      simp only [pass1, List.mem_cons] at hl
      rcases hl with h | h
      · subst h; right; rfl
      · exact ih [] l h
    | cons d s2 =>
      simp only [pass1, List.mem_cons] at hl
      rcases hl with h | h
      · subst h
        by_cases hcd : c = d
        · left; simp [hcd]
        · right; simp [hcd]
      · exact ih s2 l h

lemma pass2_chars : ∀ (rs : List Letter) (s : List Char) (u : List Bool),
    ((pass2 rs s u).1).map Letter.char = rs.map Letter.char := by
  intro rs
  induction rs with
  | nil => intro s u; rfl
  | cons l rest ih =>
    intro s u
    by_cases h : l.state = LetterState.correct
    · simp [pass2, h, ih]
    · cases hu : useChar l.char s u with
      | some u2 => simp [pass2, h, hu, ih]
      | none => simp [pass2, h, hu, ih]

lemma pass2_states : ∀ (rs : List Letter) (s : List Char) (u : List Bool),
    (∀ l ∈ rs, l.state ≠ LetterState.unknown) →
    ∀ l ∈ (pass2 rs s u).1, l.state ≠ LetterState.unknown := by
  intro rs
  induction rs with
  | nil => intro s u _ l hl; simp [pass2] at hl
  | cons l0 rest ih =>
    intro s u h l hl
    have h0 : l0.state ≠ LetterState.unknown := h l0 (List.mem_cons_self l0 rest)
    have hrest : ∀ x ∈ rest, x.state ≠ LetterState.unknown :=
      fun x hx => h x (List.mem_cons_of_mem _ hx)
    by_cases hc : l0.state = LetterState.correct
    · simp only [pass2, if_pos hc, List.mem_cons] at hl
      rcases hl with rfl | hl
      · exact h0
      · exact ih s u hrest l hl
    · cases hu : useChar l0.char s u with
      | some u2 =>
        simp only [pass2, if_neg hc, hu, List.mem_cons] at hl
        rcases hl with rfl | hl
        · simp
        · exact ih s u2 hrest l hl
      | none =>
        simp only [pass2, if_neg hc, hu, List.mem_cons] at hl
        rcases hl with rfl | hl
        · exact h0
        · exact ih s u hrest l hl

lemma pass2_balance (c : Char) : ∀ (rs : List Letter) (s : List Char) (u : List Bool),
    (∀ l ∈ rs, l.state = LetterState.correct ∨ l.state = LetterState.absent) →
    countCP c (pass2 rs s u).1 + usedCount c s u
      = countCP c rs + usedCount c s (pass2 rs s u).2 := by
  intro rs
  induction rs with
  | nil => intro s u _; rfl
  | cons l rest ih =>
    intro s u h
    have hrest : ∀ x ∈ rest, x.state = LetterState.correct ∨ x.state = LetterState.absent :=
      fun x hx => h x (List.mem_cons_of_mem _ hx)
    by_cases hc : l.state = LetterState.correct
    · simp only [pass2, if_pos hc, countCP]
      have hih := ih s u hrest
      omega
    · have habs : l.state = LetterState.absent :=
        (h l (List.mem_cons_self l rest)).resolve_left hc
      cases hu : useChar l.char s u with
      | some u2 =>
        simp only [pass2, if_neg hc, hu, countCP]
        have hih := ih s u2 hrest
        have husd := useChar_usedCount l.char s u u2 hu c
        have hp : (if (Letter.mk l.char LetterState.present).char = c ∧
            isCP (Letter.mk l.char LetterState.present).state = true then 1 else 0)
            = (if l.char = c then 1 else 0) := by
          by_cases hlc : l.char = c <;> simp [hlc, isCP]
        have hl0 : (if l.char = c ∧ isCP l.state = true then 1 else 0) = 0 := by
          simp [habs, isCP]
        rw [hp, hl0]
        omega
      | none =>
        simp only [pass2, if_neg hc, hu, countCP]
        have hih := ih s u hrest
        omega

lemma countCP_le_countCh (c : Char) : ∀ ls : List Letter,
    countCP c ls ≤ countCh c (ls.map Letter.char) := by
  intro ls
  induction ls with
  | nil => simp [countCP, countCh]
  | cons l ls ih =>
    simp only [countCP, List.map_cons, countCh]
    by_cases hlc : l.char = c
    · by_cases hcp : isCP l.state = true
      · rw [if_pos ⟨hlc, hcp⟩, if_pos hlc]; omega
      · rw [if_neg (by tauto), if_pos hlc]; omega
    · rw [if_neg (by tauto), if_neg hlc]; omega

/-- Claim C1: for every guess and solution and every character c, the number
of result positions of evaluateGuess holding c that are classified
Correct-or-Present is at most min(occurrences of c in the lowercased guess,
occurrences of c in the lowercased solution); for solution "kissa" and guess
"ssss", exactly 2 positions are Correct-or-Present and exactly 2 Absent. -/
theorem evaluateGuess_multiset_invariant :
    (∀ (guess solution : String) (c : Char),
      countCP c (evaluateGuess guess solution)
        ≤ min (countCh c (lowerChars guess)) (countCh c (lowerChars solution)))
    ∧ countCPAll (evaluateGuess "ssss" "kissa") = 2
    ∧ countAbsent (evaluateGuess "ssss" "kissa") = 2 := by
  refine ⟨?_, by decide, by decide⟩
  intro guess solution c
  have h1 := pass2_balance c (pass1 (lowerChars guess) (lowerChars solution))
    (lowerChars solution) (used1 (lowerChars guess) (lowerChars solution))
    (pass1_states (lowerChars guess) (lowerChars solution))
  have h2 := countCP_pass1 c (lowerChars guess) (lowerChars solution)
  have h3 := usedCount_le_countCh c (lowerChars solution)
    (pass2 (pass1 (lowerChars guess) (lowerChars solution)) (lowerChars solution)
      (used1 (lowerChars guess) (lowerChars solution))).2
  have h4 := countCP_le_countCh c
    (pass2 (pass1 (lowerChars guess) (lowerChars solution)) (lowerChars solution)
      (used1 (lowerChars guess) (lowerChars solution))).1
  rw [pass2_chars, pass1_chars] at h4
  have heq : countCP c (evaluateGuess guess solution)
      = countCP c (pass2 (pass1 (lowerChars guess) (lowerChars solution))
          (lowerChars solution) (used1 (lowerChars guess) (lowerChars solution))).1 := rfl
  rw [heq]
  refine Nat.le_min.mpr ⟨h4, ?_⟩
  omega

/-- Claim C10: evaluateGuess is total for every pair of strings: the result
has exactly one entry per guess character, its characters are the lowercased
guess characters in order, and no entry is classified Unknown. -/
theorem evaluateGuess_total_shape :
    ∀ (guess solution : String),
      (evaluateGuess guess solution).map Letter.char = lowerChars guess
      ∧ (evaluateGuess guess solution).length = guess.length
      ∧ ∀ l ∈ evaluateGuess guess solution, l.state ≠ LetterState.unknown := by
  intro guess solution
  have hchars : (evaluateGuess guess solution).map Letter.char = lowerChars guess := by
    have heq : evaluateGuess guess solution
        = (pass2 (pass1 (lowerChars guess) (lowerChars solution)) (lowerChars solution)
            (used1 (lowerChars guess) (lowerChars solution))).1 := rfl
    rw [heq, pass2_chars, pass1_chars]
  refine ⟨hchars, ?_, ?_⟩
  · have hlen := congrArg List.length hchars
    rw [List.length_map] at hlen
    rw [hlen]
    show (guess.toList.map Char.toLower).length = guess.length
    rw [List.length_map]
    rfl
  · intro l hl
    have hin : ∀ x ∈ pass1 (lowerChars guess) (lowerChars solution),
        x.state ≠ LetterState.unknown := by
      intro x hx
      rcases pass1_states (lowerChars guess) (lowerChars solution) x hx with h | h <;>
        simp [h]
    exact pass2_states (pass1 (lowerChars guess) (lowerChars solution))
      (lowerChars solution) (used1 (lowerChars guess) (lowerChars solution)) hin l hl

/-! ## Keyboard feedback aggregator (evaluation.ts, `updateRevealedLetters`)

The JS `Map<string, LetterState>` is embedded as an insertion-ordered
association list: `set` replaces the first binding of the key in place
or appends a new binding, `get` returns the first binding. -/

/-- `Map.get`: first binding of the key, if any. -/
def mapGet (m : List (Char × LetterState)) (c : Char) : Option LetterState :=
  match m with
  | [] => none
  | p :: rest => if p.1 = c then some p.2 else mapGet rest c

/-- `Map.set`: replace the first binding in place, else append. -/
def mapSet (m : List (Char × LetterState)) (c : Char) (v : LetterState) :
    List (Char × LetterState) :=
  match m with
  | [] => [(c, v)]
  | p :: rest => if p.1 = c then (c, v) :: rest else p :: mapSet rest c v

/-- One iteration of the loop body of `updateRevealedLetters`:
correct is written unconditionally, present only when the stored state is
not correct, absent only when no entry exists yet. -/
def updateOne (m : List (Char × LetterState)) (l : Letter) :
    List (Char × LetterState) :=
  if l.state = LetterState.correct then
    mapSet m (Char.toLower l.char) LetterState.correct
  else if l.state = LetterState.present ∧
      mapGet m (Char.toLower l.char) ≠ some LetterState.correct then
    mapSet m (Char.toLower l.char) LetterState.present
  else if l.state = LetterState.absent ∧ mapGet m (Char.toLower l.char) = none then
    mapSet m (Char.toLower l.char) LetterState.absent
  else m

/-- `updateRevealedLetters(revealedLetters, letters)` from evaluation.ts. -/
def updateRevealedLetters (m : List (Char × LetterState)) (ls : List Letter) :
    List (Char × LetterState) :=
  ls.foldl updateOne m

/-- A sequence of `updateRevealedLetters` calls, one per evaluated guess. -/
def applyGuessUpdates (m : List (Char × LetterState)) (lss : List (List Letter)) :
    List (Char × LetterState) :=
  lss.foldl updateRevealedLetters m

lemma mapGet_mapSet (c c2 : Char) (v : LetterState) : ∀ m : List (Char × LetterState),
    mapGet (mapSet m c v) c2 = if c = c2 then some v else mapGet m c2 := by
  intro m
  induction m with
  | nil =>
    simp [mapSet, mapGet]
  | cons p rest ih =>
    simp only [mapSet]
    by_cases hp : p.1 = c
    · simp only [if_pos hp, mapGet]
      by_cases h : c = c2
      · simp [h]
      · have : ¬(p.1 = c2) := by rw [hp]; exact h
        simp [h, this]
    · simp only [if_neg hp, mapGet, ih]
      by_cases hq : p.1 = c2
      · have : ¬(c = c2) := fun hcc => hp (hq.trans hcc.symm)
        simp [hq, this]
      · simp [hq]

lemma updateOne_correct (m : List (Char × LetterState)) (l : Letter) (c : Char)
    (h : mapGet m c = some LetterState.correct) :
    mapGet (updateOne m l) c = some LetterState.correct := by
  unfold updateOne
  by_cases h1 : l.state = LetterState.correct
  · rw [if_pos h1, mapGet_mapSet]
    by_cases hc : Char.toLower l.char = c
    · rw [if_pos hc]
    · rw [if_neg hc]; exact h
  · rw [if_neg h1]
    by_cases h2 : l.state = LetterState.present ∧
        mapGet m (Char.toLower l.char) ≠ some LetterState.correct
    · rw [if_pos h2, mapGet_mapSet]
      by_cases hc : Char.toLower l.char = c
      · exact absurd (hc ▸ h) h2.2
      · rw [if_neg hc]; exact h
    · rw [if_neg h2]
      by_cases h3 : l.state = LetterState.absent ∧
          mapGet m (Char.toLower l.char) = none
      · rw [if_pos h3, mapGet_mapSet]
        by_cases hc : Char.toLower l.char = c
        · rw [hc] at h3
          rw [h3.2] at h
          cases h
        · rw [if_neg hc]; exact h
      · rw [if_neg h3]; exact h

lemma updateOne_present (m : List (Char × LetterState)) (l : Letter) (c : Char)
    (h : mapGet m c = some LetterState.present) :
    mapGet (updateOne m l) c = some LetterState.present
      ∨ mapGet (updateOne m l) c = some LetterState.correct := by
  unfold updateOne
  by_cases h1 : l.state = LetterState.correct
  · rw [if_pos h1, mapGet_mapSet]
    by_cases hc : Char.toLower l.char = c
    · right; rw [if_pos hc]
    · left; rw [if_neg hc]; exact h
  · rw [if_neg h1]
    by_cases h2 : l.state = LetterState.present ∧
        mapGet m (Char.toLower l.char) ≠ some LetterState.correct
    · rw [if_pos h2, mapGet_mapSet]
      by_cases hc : Char.toLower l.char = c
      · left; rw [if_pos hc]
      · left; rw [if_neg hc]; exact h
    · rw [if_neg h2]
      by_cases h3 : l.state = LetterState.absent ∧
          mapGet m (Char.toLower l.char) = none
      · rw [if_pos h3, mapGet_mapSet]
        by_cases hc : Char.toLower l.char = c
        · rw [hc] at h3
          rw [h3.2] at h
          cases h
        · left; rw [if_neg hc]; exact h
      · left; rw [if_neg h3]; exact h

lemma updateOne_absent_rev (m : List (Char × LetterState)) (l : Letter) (c : Char)
    (h : mapGet (updateOne m l) c = some LetterState.absent) :
    mapGet m c = some LetterState.absent ∨ mapGet m c = none := by
  unfold updateOne at h
  by_cases h1 : l.state = LetterState.correct
  · rw [if_pos h1, mapGet_mapSet] at h
    by_cases hc : Char.toLower l.char = c
    · rw [if_pos hc] at h; cases h
    · rw [if_neg hc] at h; left; exact h
  · rw [if_neg h1] at h
    by_cases h2 : l.state = LetterState.present ∧
        mapGet m (Char.toLower l.char) ≠ some LetterState.correct
    · rw [if_pos h2, mapGet_mapSet] at h
      by_cases hc : Char.toLower l.char = c
      · rw [if_pos hc] at h; cases h
      · rw [if_neg hc] at h; left; exact h
    · rw [if_neg h2] at h
      by_cases h3 : l.state = LetterState.absent ∧
          mapGet m (Char.toLower l.char) = none
      · rw [if_pos h3, mapGet_mapSet] at h
        by_cases hc : Char.toLower l.char = c
        · right; rw [hc] at h3; exact h3.2
        · rw [if_neg hc] at h; left; exact h
      · rw [if_neg h3] at h; left; exact h

lemma updateOne_none_rev (m : List (Char × LetterState)) (l : Letter) (c : Char)
    (h : mapGet (updateOne m l) c = none) : mapGet m c = none := by
  unfold updateOne at h
  by_cases h1 : l.state = LetterState.correct
  · rw [if_pos h1, mapGet_mapSet] at h
    by_cases hc : Char.toLower l.char = c
    · rw [if_pos hc] at h; cases h
    · rw [if_neg hc] at h; exact h
  · rw [if_neg h1] at h
    by_cases h2 : l.state = LetterState.present ∧
        mapGet m (Char.toLower l.char) ≠ some LetterState.correct
    · rw [if_pos h2, mapGet_mapSet] at h
      by_cases hc : Char.toLower l.char = c
      · rw [if_pos hc] at h; cases h
      · rw [if_neg hc] at h; exact h
    · rw [if_neg h2] at h
      by_cases h3 : l.state = LetterState.absent ∧
          mapGet m (Char.toLower l.char) = none
      · rw [if_pos h3, mapGet_mapSet] at h
        by_cases hc : Char.toLower l.char = c
        · rw [if_pos hc] at h; cases h
        · rw [if_neg hc] at h; exact h
      · rw [if_neg h3] at h; exact h

lemma updateRevealedLetters_correct (c : Char) : ∀ (ls : List Letter)
    (m : List (Char × LetterState)), mapGet m c = some LetterState.correct →
    mapGet (updateRevealedLetters m ls) c = some LetterState.correct := by
  intro ls
  induction ls with
  | nil => intro m h; exact h
  | cons l ls ih =>
    intro m h
    exact ih (updateOne m l) (updateOne_correct m l c h)

lemma updateRevealedLetters_present (c : Char) : ∀ (ls : List Letter)
    (m : List (Char × LetterState)), mapGet m c = some LetterState.present →
    mapGet (updateRevealedLetters m ls) c = some LetterState.present
      ∨ mapGet (updateRevealedLetters m ls) c = some LetterState.correct := by
  intro ls
  induction ls with
  | nil => intro m h; left; exact h
  | cons l ls ih =>
    intro m h
    rcases updateOne_present m l c h with h2 | h2
    · exact ih (updateOne m l) h2
    · right; exact updateRevealedLetters_correct c ls (updateOne m l) h2

lemma updateRevealedLetters_absent_rev (c : Char) : ∀ (ls : List Letter)
    (m : List (Char × LetterState)),
    mapGet (updateRevealedLetters m ls) c = some LetterState.absent →
    mapGet m c = some LetterState.absent ∨ mapGet m c = none := by
  intro ls
  induction ls with
  | nil => intro m h; left; exact h
  | cons l ls ih =>
    intro m h
    rcases ih (updateOne m l) h with h2 | h2
    · exact updateOne_absent_rev m l c h2
    · right; exact updateOne_none_rev m l c h2

lemma updateRevealedLetters_none_rev (c : Char) : ∀ (ls : List Letter)
    (m : List (Char × LetterState)),
    mapGet (updateRevealedLetters m ls) c = none → mapGet m c = none := by
  intro ls
  induction ls with
  | nil => intro m h; exact h
  | cons l ls ih =>
    intro m h
    exact updateOne_none_rev m l c (ih (updateOne m l) h)

lemma applyGuessUpdates_correct (c : Char) : ∀ (lss : List (List Letter))
    (m : List (Char × LetterState)), mapGet m c = some LetterState.correct →
    mapGet (applyGuessUpdates m lss) c = some LetterState.correct := by
  intro lss
  induction lss with
  | nil => intro m h; exact h
  | cons ls lss ih =>
    intro m h
    exact ih (updateRevealedLetters m ls) (updateRevealedLetters_correct c ls m h)

lemma applyGuessUpdates_present (c : Char) : ∀ (lss : List (List Letter))
    (m : List (Char × LetterState)), mapGet m c = some LetterState.present →
    mapGet (applyGuessUpdates m lss) c = some LetterState.present
      ∨ mapGet (applyGuessUpdates m lss) c = some LetterState.correct := by
  intro lss
  induction lss with
  | nil => intro m h; left; exact h
  | cons ls lss ih =>
    intro m h
    rcases updateRevealedLetters_present c ls m h with h2 | h2
    · exact ih (updateRevealedLetters m ls) h2
    · right; exact applyGuessUpdates_correct c lss (updateRevealedLetters m ls) h2

lemma applyGuessUpdates_absent_rev (c : Char) : ∀ (lss : List (List Letter))
    (m : List (Char × LetterState)),
    mapGet (applyGuessUpdates m lss) c = some LetterState.absent →
    mapGet m c = some LetterState.absent ∨ mapGet m c = none := by
  intro lss
  induction lss with
  | nil => intro m h; left; exact h
  | cons ls lss ih =>
    intro m h
    rcases ih (updateRevealedLetters m ls) h with h2 | h2
    · exact updateRevealedLetters_absent_rev c ls m h2
    · right; exact updateRevealedLetters_none_rev c ls m h2

/-- Claim C5: updateRevealedLetters is monotone in the order
Correct > Present > Absent: across any sequence of updates, a character
mapped to Correct stays Correct, a character mapped to Present is never
overwritten by Absent (it stays Present or becomes Correct), and Absent
in the final map can only come from a character that was already Absent
or had no entry. -/
theorem updateRevealedLetters_monotone :
    ∀ (m : List (Char × LetterState)) (lss : List (List Letter)) (c : Char),
      (mapGet m c = some LetterState.correct →
        mapGet (applyGuessUpdates m lss) c = some LetterState.correct)
      ∧ (mapGet m c = some LetterState.present →
        mapGet (applyGuessUpdates m lss) c = some LetterState.present
          ∨ mapGet (applyGuessUpdates m lss) c = some LetterState.correct)
      ∧ (mapGet (applyGuessUpdates m lss) c = some LetterState.absent →
        mapGet m c = some LetterState.absent ∨ mapGet m c = none) :=
  fun m lss c =>
    ⟨applyGuessUpdates_correct c lss m,
     applyGuessUpdates_present c lss m,
     applyGuessUpdates_absent_rev c lss m⟩

/-- Witness for claim C5 at concrete inputs: a Correct entry for a survives
an Absent update for a, and an Absent result for a in an empty starting map
implies the map had no entry for a. -/
theorem updateRevealedLetters_monotone_witness :
    mapGet (applyGuessUpdates [('a', LetterState.correct)]
      [[⟨'a', LetterState.absent⟩]]) 'a' = some LetterState.correct
    ∧ (mapGet ([] : List (Char × LetterState)) 'a' = some LetterState.absent
        ∨ mapGet ([] : List (Char × LetterState)) 'a' = none) :=
  ⟨(updateRevealedLetters_monotone [('a', LetterState.correct)]
      [[⟨'a', LetterState.absent⟩]] 'a').1 (by decide),
   (updateRevealedLetters_monotone [] [[⟨'a', LetterState.absent⟩]] 'a').2.2 (by decide)⟩

/-! ## Hard-mode constraint engine (hardMode.ts)

`getHardModeConstraints` folds over every evaluated letter of every past
guess, keeping one constraint per (lowercased) character in a JS-Map-like
insertion-ordered list; `validateHardMode` checks a candidate guess
against the constraints in order and returns the first violation. -/

/-- A positional entry of a constraint: `mustBeHere = true` pins the
character to the index (from Correct), `false` forbids it there (from
Present). -/
structure PosConstraint where
  index : Nat
  mustBeHere : Bool
deriving DecidableEq

/-- `HardModeConstraint` from hardMode.ts. -/
structure HardModeConstraint where
  letter : Char
  mustInclude : Bool
  positions : List PosConstraint
deriving DecidableEq

/-- The Correct branch on the positions list: upgrade the entry for the
index to `mustBeHere = true` in place, or push a new pinned entry. -/
def setPos (ps : List PosConstraint) (i : Nat) : List PosConstraint :=
  match ps with
  | [] => [⟨i, true⟩]
  | p :: rest => if p.index = i then ⟨i, true⟩ :: rest else p :: setPos rest i

/-- The Present branch on the positions list: push a forbidden entry only
when the index has no entry yet. -/
def addPosIfAbsent (ps : List PosConstraint) (i : Nat) : List PosConstraint :=
  if ps.any (fun p => p.index == i) then ps else ps ++ [⟨i, false⟩]

/-- Create the empty constraint for a character when the map has none. -/
def ensureC (cs : List HardModeConstraint) (c : Char) : List HardModeConstraint :=
  if cs.any (fun k => k.letter == c) then cs else cs ++ [⟨c, false, []⟩]

/-- Update the (unique) constraint bound to a character, in place. -/
def updC (cs : List HardModeConstraint) (c : Char)
    (f : HardModeConstraint → HardModeConstraint) : List HardModeConstraint :=
  match cs with
  | [] => []
  | k :: rest => if k.letter = c then f k :: rest else k :: updC rest c f

/-- The body of the inner loop of `getHardModeConstraints` for the letter
at index `i`: Absent adds nothing; otherwise the character's constraint is
created if missing and then updated according to the classification. -/
def addLetterConstraint (cs : List HardModeConstraint) (i : Nat) (l : Letter) :
    List HardModeConstraint :=
  if l.state = LetterState.absent then cs
  else
    let c := Char.toLower l.char
    let cs2 := ensureC cs c
    if l.state = LetterState.correct then
      updC cs2 c (fun k => ⟨k.letter, true, setPos k.positions i⟩)
    else if l.state = LetterState.present then
      updC cs2 c (fun k => ⟨k.letter, true, addPosIfAbsent k.positions i⟩)
    else cs2

/-- Process the letters of one guess, indices counting up from `i`. -/
def addLettersFrom : List HardModeConstraint → Nat → List Letter → List HardModeConstraint
  | cs, _, [] => cs
  | cs, i, l :: rest => addLettersFrom (addLetterConstraint cs i l) (i + 1) rest

/-- Process one past guess of the history. -/
def addGuessConstraints (cs : List HardModeConstraint) (g : Guess) :
    List HardModeConstraint :=
  addLettersFrom cs 0 g.letters

/-- `getHardModeConstraints(guesses)` from hardMode.ts. -/
def getHardModeConstraints (guesses : List Guess) : List HardModeConstraint :=
  guesses.foldl addGuessConstraints []

/-- Position checks of `validateHardMode` for one constraint; an
out-of-range index reads as no character, which (as in JS) violates a
pinned entry and satisfies a forbidden one. -/
def checkPositions (gl : List Char) (c : Char) : List PosConstraint → Option String
  | [] => none
  | p :: rest =>
    if p.mustBeHere = true then
      if gl[p.index]? = some c then checkPositions gl c rest
      else some (String.singleton (Char.toUpper c) ++ " must be in position "
        ++ toString (p.index + 1))
    else
      if gl[p.index]? = some c then
        some (String.singleton (Char.toUpper c) ++ " cannot be in position "
          ++ toString (p.index + 1))
      else checkPositions gl c rest

/-- One constraint of `validateHardMode`: the inclusion check runs first,
then the position entries in order. -/
def checkConstraint (gl : List Char) (k : HardModeConstraint) : Option String :=
  if k.mustInclude = true ∧ countCh k.letter gl = 0 then
    some ("Must include \"" ++ String.singleton (Char.toUpper k.letter) ++ "\"")
  else checkPositions gl k.letter k.positions

/-- The constraint loop of `validateHardMode`: first violation wins. -/
def validateList (gl : List Char) : List HardModeConstraint → Option String
  | [] => none
  | k :: rest =>
    match checkConstraint gl k with
    | some e => some e
    | none => validateList gl rest

/-- `validateHardMode(guess, constraints)` from hardMode.ts: `none` means
the guess is valid. -/
def validateHardMode (guess : String) (cs : List HardModeConstraint) : Option String :=
  validateList (lowerChars guess) cs

/-- The positions list pins index `i` (`mustBeHere = true`). -/
def HasTrue (ps : List PosConstraint) (i : Nat) : Prop :=
  ∃ p ∈ ps, p.index = i ∧ p.mustBeHere = true

/-- The constraint list pins character `c` to index `i`. -/
def HasGreen (cs : List HardModeConstraint) (c : Char) (i : Nat) : Prop :=
  ∃ k ∈ cs, k.letter = c ∧ HasTrue k.positions i

/-- Some past guess revealed classification Correct for character `c`
(after lowercasing) at index `i`. -/
def RevealedCorrect (history : List Guess) (c : Char) (i : Nat) : Prop :=
  ∃ g ∈ history, ∃ l, g.letters[i]? = some l
    ∧ l.state = LetterState.correct ∧ Char.toLower l.char = c

/-- The single-guess history of the spec example: guess "kissa" against
solution "kissa", all letters Correct. -/
def kissaHistory : List Guess := [⟨"kissa", evaluateGuess "kissa" "kissa"⟩]

lemma setPos_mono (i0 j : Nat) : ∀ ps : List PosConstraint,
    HasTrue ps i0 → HasTrue (setPos ps j) i0 := by
  intro ps
  induction ps with
  | nil =>
    intro h
    obtain ⟨p, hp, _⟩ := h
    simp at hp
  | cons p rest ih =>
    intro h
    obtain ⟨q, hq, hqi, hqb⟩ := h
    by_cases hpj : p.index = j
    · simp only [setPos, if_pos hpj]
      rcases List.mem_cons.mp hq with rfl | hmem
      · exact ⟨⟨j, true⟩, List.mem_cons_self _ _, by rw [← hqi, ← hpj], rfl⟩
      · exact ⟨q, List.mem_cons_of_mem _ hmem, hqi, hqb⟩
    · simp only [setPos, if_neg hpj]
      rcases List.mem_cons.mp hq with rfl | hmem
      · exact ⟨q, List.mem_cons_self _ _, hqi, hqb⟩
      · obtain ⟨r, hr, hri, hrb⟩ := ih ⟨q, hmem, hqi, hqb⟩
        exact ⟨r, List.mem_cons_of_mem _ hr, hri, hrb⟩

lemma setPos_adds (j : Nat) : ∀ ps : List PosConstraint, HasTrue (setPos ps j) j := by
  intro ps
  induction ps with
  | nil => exact ⟨⟨j, true⟩, List.mem_cons_self _ _, rfl, rfl⟩
  | cons p rest ih =>
    by_cases hpj : p.index = j
    · simp only [setPos, if_pos hpj]
      exact ⟨⟨j, true⟩, List.mem_cons_self _ _, rfl, rfl⟩
    · simp only [setPos, if_neg hpj]
      obtain ⟨r, hr, hri, hrb⟩ := ih
      exact ⟨r, List.mem_cons_of_mem _ hr, hri, hrb⟩

lemma addPosIfAbsent_mono (i0 j : Nat) (ps : List PosConstraint) :
    HasTrue ps i0 → HasTrue (addPosIfAbsent ps j) i0 := by
  intro h
  obtain ⟨q, hq, hqi, hqb⟩ := h
  unfold addPosIfAbsent
  by_cases hany : ps.any (fun p => p.index == j) = true
  · rw [if_pos hany]; exact ⟨q, hq, hqi, hqb⟩
  · rw [if_neg hany]; exact ⟨q, List.mem_append_left _ hq, hqi, hqb⟩

lemma updC_mono (c : Char) (i0 : Nat) (c2 : Char)
    (f : HardModeConstraint → HardModeConstraint)
    (hf1 : ∀ k, (f k).letter = k.letter)
    (hf2 : ∀ k, HasTrue k.positions i0 → HasTrue (f k).positions i0) :
    ∀ cs : List HardModeConstraint, HasGreen cs c i0 → HasGreen (updC cs c2 f) c i0 := by
  intro cs
  induction cs with
  | nil => intro h; obtain ⟨k, hk, _⟩ := h; simp at hk
  | cons k rest ih =>
    intro h
    obtain ⟨q, hq, hql, hqt⟩ := h
    by_cases hk : k.letter = c2
    · simp only [updC, if_pos hk]
      rcases List.mem_cons.mp hq with rfl | hmem
      · exact ⟨f q, List.mem_cons_self _ _, (hf1 q).trans hql, hf2 q hqt⟩
      · exact ⟨q, List.mem_cons_of_mem _ hmem, hql, hqt⟩
    · simp only [updC, if_neg hk]
      rcases List.mem_cons.mp hq with rfl | hmem
      · exact ⟨q, List.mem_cons_self _ _, hql, hqt⟩
      · obtain ⟨r, hr, hrl, hrt⟩ := ih ⟨q, hmem, hql, hqt⟩
        exact ⟨r, List.mem_cons_of_mem _ hr, hrl, hrt⟩

lemma updC_establish (c : Char) (i0 : Nat)
    (f : HardModeConstraint → HardModeConstraint)
    (hf : ∀ k, k.letter = c → (f k).letter = c ∧ HasTrue (f k).positions i0) :
    ∀ cs : List HardModeConstraint, (∃ k ∈ cs, k.letter = c) →
      HasGreen (updC cs c f) c i0 := by
  intro cs
  induction cs with
  | nil => intro h; obtain ⟨k, hk, _⟩ := h; simp at hk
  | cons k rest ih =>
    intro h
    by_cases hk : k.letter = c
    · simp only [updC, if_pos hk]
      obtain ⟨hl, ht⟩ := hf k hk
      exact ⟨f k, List.mem_cons_self _ _, hl, ht⟩
    · simp only [updC, if_neg hk]
      obtain ⟨q, hq, hql⟩ := h
      rcases List.mem_cons.mp hq with rfl | hmem
      · exact absurd hql hk
      · obtain ⟨r, hr, hrl, hrt⟩ := ih ⟨q, hmem, hql⟩
        exact ⟨r, List.mem_cons_of_mem _ hr, hrl, hrt⟩

lemma ensureC_mono (c : Char) (i0 : Nat) (c2 : Char) (cs : List HardModeConstraint) :
    HasGreen cs c i0 → HasGreen (ensureC cs c2) c i0 := by
  intro h
  obtain ⟨q, hq, hql, hqt⟩ := h
  unfold ensureC
  by_cases hany : cs.any (fun k => k.letter == c2) = true
  · rw [if_pos hany]; exact ⟨q, hq, hql, hqt⟩
  · rw [if_neg hany]; exact ⟨q, List.mem_append_left _ hq, hql, hqt⟩

lemma ensureC_has (c : Char) (cs : List HardModeConstraint) :
    ∃ k ∈ ensureC cs c, k.letter = c := by
  unfold ensureC
  by_cases hany : cs.any (fun k => k.letter == c) = true
  · rw [if_pos hany]
    obtain ⟨k, hk, hbeq⟩ := List.any_eq_true.mp hany
    exact ⟨k, hk, eq_of_beq hbeq⟩
  · rw [if_neg hany]
    exact ⟨⟨c, false, []⟩, List.mem_append_right _ (List.mem_singleton.mpr rfl), rfl⟩

lemma addLetterConstraint_mono (c : Char) (i0 j : Nat) (l : Letter)
    (cs : List HardModeConstraint) :
    HasGreen cs c i0 → HasGreen (addLetterConstraint cs j l) c i0 := by
  intro h
  unfold addLetterConstraint
  by_cases ha : l.state = LetterState.absent
  · rw [if_pos ha]; exact h
  · rw [if_neg ha]
    by_cases hc : l.state = LetterState.correct
    · simp only [if_pos hc]
      exact updC_mono c i0 (Char.toLower l.char)
        (fun k => ⟨k.letter, true, setPos k.positions j⟩) (fun k => rfl)
        (fun k => setPos_mono i0 j k.positions)
        (ensureC cs (Char.toLower l.char))
        (ensureC_mono c i0 (Char.toLower l.char) cs h)
    · simp only [if_neg hc]
      by_cases hp : l.state = LetterState.present
      · simp only [if_pos hp]
        exact updC_mono c i0 (Char.toLower l.char)
          (fun k => ⟨k.letter, true, addPosIfAbsent k.positions j⟩) (fun k => rfl)
          (fun k => addPosIfAbsent_mono i0 j k.positions)
          (ensureC cs (Char.toLower l.char))
          (ensureC_mono c i0 (Char.toLower l.char) cs h)
      · simp only [if_neg hp]
        exact ensureC_mono c i0 (Char.toLower l.char) cs h

lemma addLetterConstraint_establish (j : Nat) (l : Letter)
    (cs : List HardModeConstraint) (h1 : l.state = LetterState.correct) :
    HasGreen (addLetterConstraint cs j l) (Char.toLower l.char) j := by
  unfold addLetterConstraint
  rw [if_neg (by rw [h1]; intro hx; cases hx), if_pos h1]
  exact updC_establish (Char.toLower l.char) j
    (fun k => ⟨k.letter, true, setPos k.positions j⟩)
    (fun k hk => ⟨hk, setPos_adds j k.positions⟩)
    (ensureC cs (Char.toLower l.char))
    (ensureC_has (Char.toLower l.char) cs)

lemma addLettersFrom_mono (c : Char) (i0 : Nat) : ∀ (ls : List Letter)
    (cs : List HardModeConstraint) (j : Nat),
    HasGreen cs c i0 → HasGreen (addLettersFrom cs j ls) c i0 := by
  intro ls
  induction ls with
  | nil => intro cs j h; exact h
  | cons l rest ih =>
    intro cs j h
    exact ih (addLetterConstraint cs j l) (j + 1)
      (addLetterConstraint_mono c i0 j l cs h)

lemma addLettersFrom_green : ∀ (ls : List Letter) (cs : List HardModeConstraint)
    (i j : Nat) (l : Letter), ls[j]? = some l → l.state = LetterState.correct →
    HasGreen (addLettersFrom cs i ls) (Char.toLower l.char) (i + j) := by
  intro ls
  induction ls with
  | nil => intro cs i j l hget; simp at hget
  | cons l0 rest ih =>
    intro cs i j l hget hstate
    cases j with
    | zero =>
      have hl : l0 = l := by simpa using hget
      rw [← hl] at hstate ⊢
      simp only [addLettersFrom, Nat.add_zero]
      exact addLettersFrom_mono (Char.toLower l0.char) i rest
        (addLetterConstraint cs i l0) (i + 1)
        (addLetterConstraint_establish i l0 cs hstate)
    | succ j2 =>
      simp only [List.getElem?_cons_succ] at hget
      have heq : i + (j2 + 1) = (i + 1) + j2 := by omega
      rw [heq]
      exact ih (addLetterConstraint cs i l0) (i + 1) j2 l hget hstate

lemma foldl_addGuess_mono (c : Char) (i0 : Nat) : ∀ (gs : List Guess)
    (cs : List HardModeConstraint), HasGreen cs c i0 →
    HasGreen (gs.foldl addGuessConstraints cs) c i0 := by
  intro gs
  induction gs with
  | nil => intro cs h; exact h
  | cons g rest ih =>
    intro cs h
    exact ih (addGuessConstraints cs g)
      (addLettersFrom_mono c i0 g.letters cs 0 h)

lemma getHardModeConstraints_green : ∀ (guesses : List Guess)
    (cs : List HardModeConstraint) (g : Guess) (i : Nat) (l : Letter),
    g ∈ guesses → g.letters[i]? = some l → l.state = LetterState.correct →
    HasGreen (guesses.foldl addGuessConstraints cs) (Char.toLower l.char) i := by
  intro guesses
  induction guesses with
  | nil => intro cs g i l hmem; simp at hmem
  | cons g0 rest ih =>
    intro cs g i l hmem hget hstate
    rcases List.mem_cons.mp hmem with rfl | hmem2
    · have h0 : HasGreen (addGuessConstraints cs g) (Char.toLower l.char) i := by
        have := addLettersFrom_green g.letters cs 0 i l hget hstate
        rwa [Nat.zero_add] at this
      exact foldl_addGuess_mono (Char.toLower l.char) i rest
        (addGuessConstraints cs g) h0
    · exact ih (addGuessConstraints cs g0) g i l hmem2 hget hstate

lemma checkPositions_none (gl : List Char) (c : Char) : ∀ ps : List PosConstraint,
    checkPositions gl c ps = none →
    ∀ p ∈ ps, p.mustBeHere = true → gl[p.index]? = some c := by
  intro ps
  induction ps with
  | nil => intro _ p hp; simp at hp
  | cons p0 rest ih =>
    intro h p hp hpb
    by_cases hb : p0.mustBeHere = true
    · rw [checkPositions, if_pos hb] at h
      by_cases hg : gl[p0.index]? = some c
      · rw [if_pos hg] at h
        rcases List.mem_cons.mp hp with rfl | hmem
        · exact hg
        · exact ih h p hmem hpb
      · rw [if_neg hg] at h; cases h
    · rw [checkPositions, if_neg hb] at h
      by_cases hg : gl[p0.index]? = some c
      · rw [if_pos hg] at h; cases h
      · rw [if_neg hg] at h
        rcases List.mem_cons.mp hp with rfl | hmem
        · exact absurd hpb hb
        · exact ih h p hmem hpb

lemma checkConstraint_none (gl : List Char) (k : HardModeConstraint)
    (h : checkConstraint gl k = none) :
    checkPositions gl k.letter k.positions = none := by
  unfold checkConstraint at h
  by_cases hm : k.mustInclude = true ∧ countCh k.letter gl = 0
  · rw [if_pos hm] at h; cases h
  · rwa [if_neg hm] at h

lemma validateList_none (gl : List Char) : ∀ cs : List HardModeConstraint,
    validateList gl cs = none → ∀ k ∈ cs, checkConstraint gl k = none := by
  intro cs
  induction cs with
  | nil => intro _ k hk; simp at hk
  | cons k0 rest ih =>
    intro h k hk
    rw [validateList] at h
    cases hck : checkConstraint gl k0 with
    | some e => rw [hck] at h; cases h
    | none =>
      rw [hck] at h
      rcases List.mem_cons.mp hk with rfl | hmem
      · exact hck
      · exact ih h k hmem

/-- Claim C4: if some past guess revealed Correct for character c at index
i, then every candidate whose (lowercased) character at index i is not c
is rejected by validateHardMode over getHardModeConstraints, whatever its
other letters; in particular, after "kissa" evaluated against itself, the
candidate "iskka" is rejected with the 1-based position-1 message for k. -/
theorem validateHardMode_rejects_green_violation :
    (∀ (history : List Guess) (c : Char) (i : Nat) (cand : String),
      RevealedCorrect history c i → (lowerChars cand)[i]? ≠ some c →
      (validateHardMode cand (getHardModeConstraints history)).isSome = true)
    ∧ validateHardMode "iskka" (getHardModeConstraints kissaHistory)
        = some "K must be in position 1" := by
  constructor
  · intro history c i cand hrev hneq
    obtain ⟨g, hg, l, hgl, hstate, hlower⟩ := hrev
    have hgreen : HasGreen (getHardModeConstraints history) c i := by
      have h := getHardModeConstraints_green history [] g i l hg hgl hstate
      rwa [hlower] at h
    cases hval : validateHardMode cand (getHardModeConstraints history) with
    | some e => rfl
    | none =>
      exfalso
      obtain ⟨k, hk, hkl, p, hp, hpi, hpb⟩ := hgreen
      have h1 := validateList_none (lowerChars cand)
        (getHardModeConstraints history) hval k hk
      have h2 := checkConstraint_none (lowerChars cand) k h1
      have h3 := checkPositions_none (lowerChars cand) k.letter k.positions h2 p hp hpb
      rw [hkl, hpi] at h3
      exact hneq h3
  · decide

/-- Witness for claim C4: the spec example itself, proved through the
general theorem. -/
theorem validateHardMode_rejects_green_violation_witness :
    (validateHardMode "iskka" (getHardModeConstraints kissaHistory)).isSome = true :=
  validateHardMode_rejects_green_violation.1 kissaHistory 'k' 0 "iskka"
    ⟨⟨"kissa", evaluateGuess "kissa" "kissa"⟩, by decide,
      ⟨'k', LetterState.correct⟩, by decide, rfl, by decide⟩
    (by decide)

/-! ## Game round state machine (GameContext.tsx)

The React `GameState` is embedded as a record; each state-updating
callback becomes a pure function on it.  The web app (apps/web) and the
sanasto app (apps/games/sanasto) carry two variants of `GameContext.tsx`;
where they differ the function name carries the app.  The async external
word-validity check is passed in as a boolean oracle argument. -/

/-- Round status, from types/game.ts. -/
inductive GameStatus where
  | playing
  | won
  | lost
deriving DecidableEq

/-- `GameSettings` from types/game.ts (`wordLength: 5 | 6 | 7`). -/
structure GameSettings where
  wordLength : Nat
  hardMode : Bool
  maxAttempts : Nat
deriving DecidableEq

/-- `GameState` from types/game.ts; `revealedLetters` is the JS Map as an
association list and `selectedBoxIndex: number | null` is an `Option`. -/
structure GameState where
  solution : String
  guesses : List Guess
  currentGuess : String
  gameStatus : GameStatus
  settings : GameSettings
  revealedLetters : List (Char × LetterState)
  selectedBoxIndex : Option Nat
deriving DecidableEq

/-- The `useState` initial value of the web GameProvider
(`selectedBoxIndex: null`, default settings 5/false/6). -/
def initialState : GameState :=
  ⟨"", [], "", GameStatus.playing, ⟨5, false, 6⟩, [], none⟩

/-- The guess array of `addLetter`/`removeLetter`: the pending input split
into characters and padded with empty slots up to the word length (a JS
array mixing one-character strings and empty strings). -/
def padSlots (g : List Char) (n : Nat) : List (Option Char) :=
  g.map some ++ List.replicate (n - g.length) none

/-- `guessArray.join(chars)`: empty slots contribute nothing. -/
def joinSlots (slots : List (Option Char)) : String :=
  String.mk (slots.filterMap id)

/-- The cursor-advance loop of `addLetter`: the first empty slot at an
index in `[j, wl)`, or `none`. -/
def nextEmpty (slots : List (Option Char)) (wl j : Nat) : Option Nat :=
  (List.range' j (wl - j)).find? (fun k => decide (slots.getD k (some ' ') = none))

/-- `addLetter` of the web GameContext: no-op unless Playing; with a
selected in-range box the letter is written into that slot and the cursor
moves to the next empty slot to the right (or `none`); otherwise the
letter is appended when the pending input is below the word length. -/
def addLetterWeb (ch : Char) (s : GameState) : GameState :=
  if s.gameStatus ≠ GameStatus.playing then s
  else
    match s.selectedBoxIndex with
    | some i =>
      if i < s.settings.wordLength then
        let slots := (padSlots s.currentGuess.toList s.settings.wordLength).set i
          (some (Char.toLower ch))
        { s with currentGuess := joinSlots slots,
                 selectedBoxIndex := nextEmpty slots s.settings.wordLength (i + 1) }
      else
        if s.currentGuess.length ≥ s.settings.wordLength then s
        else { s with currentGuess := s.currentGuess.push (Char.toLower ch) }
    | none =>
      if s.currentGuess.length ≥ s.settings.wordLength then s
      else { s with currentGuess := s.currentGuess.push (Char.toLower ch) }

/-- `removeLetter` of the web GameContext: no-op unless Playing or when
the pending input is empty; with a selected in-range box that slot is
cleared (the cursor stays), otherwise the last character is dropped. -/
def removeLetterWeb (s : GameState) : GameState :=
  if s.gameStatus ≠ GameStatus.playing then s
  else if s.currentGuess.length = 0 then s
  else
    match s.selectedBoxIndex with
    | some i =>
      if i < s.settings.wordLength then
        let slots := (padSlots s.currentGuess.toList s.settings.wordLength).set i none
        { s with currentGuess := joinSlots slots }
      else { s with currentGuess := String.mk s.currentGuess.toList.dropLast }
    | none => { s with currentGuess := String.mk s.currentGuess.toList.dropLast }

/-- `submitGuess` of the web GameContext, with the result of the external
word-validity call passed as `apiValid`.  Guards: pending length must
equal the word length; in hard mode with non-empty history the hard-mode
validation must pass; the external check must not reject.  On acceptance
the guess is evaluated and appended, the keyboard state updated, the
status set from win/loss, the pending input cleared and the cursor unset. -/
def submitGuessWeb (s : GameState) (apiValid : Bool) : GameState :=
  if s.currentGuess.length ≠ s.settings.wordLength then s
  else if s.settings.hardMode = true ∧ 0 < s.guesses.length ∧
      (validateHardMode s.currentGuess (getHardModeConstraints s.guesses)).isSome = true then s
  else if apiValid = false then s
  else
    let letters := evaluateGuess s.currentGuess s.solution
    let newGuesses := s.guesses ++ [⟨s.currentGuess, letters⟩]
    { s with
      guesses := newGuesses,
      currentGuess := "",
      gameStatus :=
        if lowerChars s.currentGuess = lowerChars s.solution then GameStatus.won
        else if s.settings.maxAttempts ≤ newGuesses.length then GameStatus.lost
        else GameStatus.playing,
      revealedLetters := updateRevealedLetters s.revealedLetters letters,
      selectedBoxIndex := none }

/-- `submitGuess` of the sanasto GameContext: identical to the web variant
except that on acceptance the cursor is reset to the first box
(`selectedBoxIndex: 0`). -/
def submitGuessSanasto (s : GameState) (apiValid : Bool) : GameState :=
  if s.currentGuess.length ≠ s.settings.wordLength then s
  else if s.settings.hardMode = true ∧ 0 < s.guesses.length ∧
      (validateHardMode s.currentGuess (getHardModeConstraints s.guesses)).isSome = true then s
  else if apiValid = false then s
  else
    let letters := evaluateGuess s.currentGuess s.solution
    let newGuesses := s.guesses ++ [⟨s.currentGuess, letters⟩]
    { s with
      guesses := newGuesses,
      currentGuess := "",
      gameStatus :=
        if lowerChars s.currentGuess = lowerChars s.solution then GameStatus.won
        else if s.settings.maxAttempts ≤ newGuesses.length then GameStatus.lost
        else GameStatus.playing,
      revealedLetters := updateRevealedLetters s.revealedLetters letters,
      selectedBoxIndex := some 0 }

/-- `startNewGame` of the web GameContext, with the fetched (or fallback)
solution passed in: history, pending input, keyboard state and cursor are
reset and the status returns to Playing. -/
def startNewGameWeb (w : String) (s : GameState) : GameState :=
  { s with solution := w, guesses := [], currentGuess := "",
           gameStatus := GameStatus.playing, revealedLetters := [],
           selectedBoxIndex := none }

/-- `setSelectedBoxIndex` of the web GameContext: no-op unless Playing. -/
def setSelectedBoxIndexWeb (idx : Option Nat) (s : GameState) : GameState :=
  if s.gameStatus ≠ GameStatus.playing then s
  else { s with selectedBoxIndex := idx }

/-- `updateSettings` of the web GameContext: merge a partial settings
object over the current settings. -/
def updateSettingsWeb (wl : Option Nat) (hm : Option Bool) (ma : Option Nat)
    (s : GameState) : GameState :=
  { s with settings := ⟨wl.getD s.settings.wordLength, hm.getD s.settings.hardMode,
      ma.getD s.settings.maxAttempts⟩ }

/-- The pending-input length guard of `submitGuess`. -/
def lengthOk (s : GameState) : Prop :=
  s.currentGuess.length = s.settings.wordLength

/-- The hard-mode guard of `submitGuess` passes. -/
def hardModeOk (s : GameState) : Prop :=
  ¬(s.settings.hardMode = true ∧ 0 < s.guesses.length ∧
    (validateHardMode s.currentGuess (getHardModeConstraints s.guesses)).isSome = true)

/-- `submitGuess` accepts: length and hard-mode guards pass and the
external word check does not reject. -/
def submitAccepts (s : GameState) (apiValid : Bool) : Prop :=
  lengthOk s ∧ hardModeOk s ∧ apiValid = true

instance (s : GameState) : Decidable (lengthOk s) := by
  unfold lengthOk; infer_instance

instance (s : GameState) : Decidable (hardModeOk s) := by
  unfold hardModeOk; infer_instance

instance (s : GameState) (b : Bool) : Decidable (submitAccepts s b) := by
  unfold submitAccepts; exact instDecidableAnd

lemma submitGuessWeb_accepted (s : GameState) (b : Bool) (h : submitAccepts s b) :
    submitGuessWeb s b = { s with
      guesses := s.guesses
        ++ [Guess.mk s.currentGuess (evaluateGuess s.currentGuess s.solution)],
      currentGuess := "",
      gameStatus :=
        if lowerChars s.currentGuess = lowerChars s.solution then GameStatus.won
        else if s.settings.maxAttempts ≤
            (s.guesses
              ++ [Guess.mk s.currentGuess (evaluateGuess s.currentGuess s.solution)]).length
          then GameStatus.lost
        else GameStatus.playing,
      revealedLetters := updateRevealedLetters s.revealedLetters
        (evaluateGuess s.currentGuess s.solution),
      selectedBoxIndex := none } := by
  obtain ⟨h1, h2, h3⟩ := h
  subst h3
  have hg1 : ¬(s.currentGuess.length ≠ s.settings.wordLength) := fun hne => hne h1
  have hg2 : ¬(s.settings.hardMode = true ∧ 0 < s.guesses.length ∧
      (validateHardMode s.currentGuess (getHardModeConstraints s.guesses)).isSome = true) := h2
  unfold submitGuessWeb
  rw [if_neg hg1, if_neg hg2, if_neg (by simp)]

lemma submitGuessSanasto_accepted (s : GameState) (b : Bool) (h : submitAccepts s b) :
    submitGuessSanasto s b = { s with
      guesses := s.guesses
        ++ [Guess.mk s.currentGuess (evaluateGuess s.currentGuess s.solution)],
      currentGuess := "",
      gameStatus :=
        if lowerChars s.currentGuess = lowerChars s.solution then GameStatus.won
        else if s.settings.maxAttempts ≤
            (s.guesses
              ++ [Guess.mk s.currentGuess (evaluateGuess s.currentGuess s.solution)]).length
          then GameStatus.lost
        else GameStatus.playing,
      revealedLetters := updateRevealedLetters s.revealedLetters
        (evaluateGuess s.currentGuess s.solution),
      selectedBoxIndex := some 0 } := by
  obtain ⟨h1, h2, h3⟩ := h
  subst h3
  have hg1 : ¬(s.currentGuess.length ≠ s.settings.wordLength) := fun hne => hne h1
  have hg2 : ¬(s.settings.hardMode = true ∧ 0 < s.guesses.length ∧
      (validateHardMode s.currentGuess (getHardModeConstraints s.guesses)).isSome = true) := h2
  unfold submitGuessSanasto
  rw [if_neg hg1, if_neg hg2, if_neg (by simp)]

/-- Claim C2: for every accepted submission, the resulting status is Won
iff the guess equals the solution case-insensitively, Lost iff it is not a
win and the new history length has reached maxAttempts, and otherwise the
status remains Playing. -/
theorem submitGuess_status_characterisation :
    ∀ (s : GameState) (b : Bool), submitAccepts s b →
      (((submitGuessWeb s b).gameStatus = GameStatus.won) ↔
        lowerChars s.currentGuess = lowerChars s.solution)
      ∧ (((submitGuessWeb s b).gameStatus = GameStatus.lost) ↔
        (¬ lowerChars s.currentGuess = lowerChars s.solution
          ∧ s.settings.maxAttempts ≤ s.guesses.length + 1))
      ∧ ((¬ lowerChars s.currentGuess = lowerChars s.solution
          ∧ s.guesses.length + 1 < s.settings.maxAttempts) →
        (submitGuessWeb s b).gameStatus = GameStatus.playing) := by
  intro s b h
  have hstat : (submitGuessWeb s b).gameStatus =
      (if lowerChars s.currentGuess = lowerChars s.solution then GameStatus.won
       else if s.settings.maxAttempts ≤ s.guesses.length + 1 then GameStatus.lost
       else GameStatus.playing) := by
    rw [submitGuessWeb_accepted s b h]
    simp
  rw [hstat]
  by_cases hw : lowerChars s.currentGuess = lowerChars s.solution
  · simp [hw]
  · by_cases hl : s.settings.maxAttempts ≤ s.guesses.length + 1
    · simp [hw, hl]
    · simp [hw, hl]

/-- Witness for claim C2: an accepted winning guess on a concrete state
yields status Won. -/
def demoAcceptState : GameState :=
  ⟨"kissa", [], "kissa", GameStatus.playing, ⟨5, false, 6⟩, [], none⟩

theorem submitGuess_status_characterisation_witness :
    (submitGuessWeb demoAcceptState true).gameStatus = GameStatus.won :=
  (submitGuess_status_characterisation demoAcceptState true (by decide)).1.mpr (by decide)

/-- Counterexample to claim C6 as stated: on the web GameContext an
accepted submission leaves the cursor unset (null), not at index 0. -/
theorem submitGuess_cursor_counterexample :
    submitAccepts demoAcceptState true
    ∧ (submitGuessWeb demoAcceptState true).currentGuess = ""
    ∧ (submitGuessWeb demoAcceptState true).selectedBoxIndex ≠ some 0 := by
  refine ⟨by decide, ?_, ?_⟩
  · rw [submitGuessWeb_accepted demoAcceptState true (by decide)]
  · rw [submitGuessWeb_accepted demoAcceptState true (by decide)]
    simp

/-- Claim C6 (amended): after an accepted submission both GameContext
variants clear the pending input; the sanasto variant resets the cursor to
index 0, while the web variant sets it to null (unset). -/
theorem submitGuess_clears_input_resets_cursor :
    ∀ (s : GameState) (b : Bool), submitAccepts s b →
      (submitGuessWeb s b).currentGuess = ""
      ∧ (submitGuessWeb s b).selectedBoxIndex = none
      ∧ (submitGuessSanasto s b).currentGuess = ""
      ∧ (submitGuessSanasto s b).selectedBoxIndex = some 0 := by
  intro s b h
  rw [submitGuessWeb_accepted s b h, submitGuessSanasto_accepted s b h]
  exact ⟨rfl, rfl, rfl, rfl⟩

/-- Witness for claim C6 (amended) at a concrete accepted state. -/
theorem submitGuess_clears_input_resets_cursor_witness :
    (submitGuessWeb demoAcceptState true).currentGuess = ""
    ∧ (submitGuessWeb demoAcceptState true).selectedBoxIndex = none
    ∧ (submitGuessSanasto demoAcceptState true).currentGuess = ""
    ∧ (submitGuessSanasto demoAcceptState true).selectedBoxIndex = some 0 :=
  submitGuess_clears_input_resets_cursor demoAcceptState true (by decide)

/-! ## External guess validation (api.ts, `validateGuess`) -/

/-- Outcome of the fetch to the validate-guess endpoint: the request threw
(network unreachable / timeout), the response status was not OK, or an OK
response carrying the parsed `valid` field. -/
inductive ApiOutcome where
  | networkError
  | httpError
  | success (valid : Bool)
deriving DecidableEq

/-- `validateGuess` from apps/web api.ts as a function of the fetch
outcome: both failure branches return true (fail open); an OK response
returns the server verdict. -/
def validateGuessResult : ApiOutcome → Bool
  | ApiOutcome.networkError => true
  | ApiOutcome.httpError => true
  | ApiOutcome.success v => v

/-- Claim C9: when the external validation call fails (request throws or
response not OK) validateGuess returns true, and submitGuess on a state
passing the local guards then proceeds to append the guess rather than
blocking. -/
theorem validateGuess_fails_open :
    (validateGuessResult ApiOutcome.networkError = true
      ∧ validateGuessResult ApiOutcome.httpError = true)
    ∧ ∀ (s : GameState) (o : ApiOutcome),
        (o = ApiOutcome.networkError ∨ o = ApiOutcome.httpError) →
        lengthOk s → hardModeOk s →
        (submitGuessWeb s (validateGuessResult o)).guesses
          = s.guesses
            ++ [Guess.mk s.currentGuess (evaluateGuess s.currentGuess s.solution)] := by
  refine ⟨⟨rfl, rfl⟩, ?_⟩
  intro s o ho h1 h2
  have hb : validateGuessResult o = true := by
    rcases ho with rfl | rfl <;> rfl
  rw [submitGuessWeb_accepted s (validateGuessResult o) ⟨h1, h2, hb⟩]

/-- Witness for claim C9: a concrete state whose submission proceeds under
a failed external validation. -/
theorem validateGuess_fails_open_witness :
    (submitGuessWeb demoAcceptState (validateGuessResult ApiOutcome.networkError)).guesses
      = demoAcceptState.guesses
        ++ [Guess.mk demoAcceptState.currentGuess
             (evaluateGuess demoAcceptState.currentGuess demoAcceptState.solution)] :=
  validateGuess_fails_open.2 demoAcceptState ApiOutcome.networkError (Or.inl rfl)
    (by decide) (by decide)

/-! ## Reachable states of the web GameProvider (claim C8)

A state is reachable when it arises from the initial `useState` value by
any sequence of the provider's state updates.  `updateSettings` receives a
partial settings object whose `wordLength`, when present, has the TS type
`5 | 6 | 7`. -/

/-- Reachability of a `GameState` under the web GameContext operations. -/
inductive Reach : GameState → Prop where
  | init : Reach initialState
  | newGame (w : String) {s : GameState} : Reach s → Reach (startNewGameWeb w s)
  | add (ch : Char) {s : GameState} : Reach s → Reach (addLetterWeb ch s)
  | remove {s : GameState} : Reach s → Reach (removeLetterWeb s)
  | submit (b : Bool) {s : GameState} : Reach s → Reach (submitGuessWeb s b)
  | select (idx : Option Nat) {s : GameState} :
      Reach s → Reach (setSelectedBoxIndexWeb idx s)
  | settings (wl : Option Nat) (hm : Option Bool) (ma : Option Nat) {s : GameState} :
      Reach s → (wl = none ∨ wl = some 5 ∨ wl = some 6 ∨ wl = some 7) →
      Reach (updateSettingsWeb wl hm ma s)

/-- Invariant of reachable states: outside Playing the pending input is
empty, and the configured word length is positive. -/
def StateInv (s : GameState) : Prop :=
  (s.gameStatus ≠ GameStatus.playing → s.currentGuess = "")
    ∧ 1 ≤ s.settings.wordLength

lemma inv_addLetter (ch : Char) (s : GameState) (h : StateInv s) :
    StateInv (addLetterWeb ch s) := by
  unfold addLetterWeb
  split
  · exact h
  · next hp =>
    have hstat : s.gameStatus = GameStatus.playing := not_not.mp hp
    split
    · split
      · exact ⟨fun hne => absurd hstat hne, h.2⟩
      · split
        · exact h
        · exact ⟨fun hne => absurd hstat hne, h.2⟩
    · split
      · exact h
      · exact ⟨fun hne => absurd hstat hne, h.2⟩

lemma inv_removeLetter (s : GameState) (h : StateInv s) :
    StateInv (removeLetterWeb s) := by
  unfold removeLetterWeb
  split
  · exact h
  · next hp =>
    have hstat : s.gameStatus = GameStatus.playing := not_not.mp hp
    split
    · exact h
    · split
      · split
        · exact ⟨fun hne => absurd hstat hne, h.2⟩
        · exact ⟨fun hne => absurd hstat hne, h.2⟩
      · exact ⟨fun hne => absurd hstat hne, h.2⟩

lemma inv_submit (b : Bool) (s : GameState) (h : StateInv s) :
    StateInv (submitGuessWeb s b) := by
  unfold submitGuessWeb
  by_cases h1 : s.currentGuess.length ≠ s.settings.wordLength
  · rw [if_pos h1]; exact h
  · rw [if_neg h1]
    by_cases h2 : s.settings.hardMode = true ∧ 0 < s.guesses.length ∧
        (validateHardMode s.currentGuess (getHardModeConstraints s.guesses)).isSome = true
    · rw [if_pos h2]; exact h
    · rw [if_neg h2]
      by_cases h3 : b = false
      · rw [if_pos h3]; exact h
      · rw [if_neg h3]
        exact ⟨fun _ => rfl, h.2⟩

lemma inv_newGame (w : String) (s : GameState) (h : StateInv s) :
    StateInv (startNewGameWeb w s) :=
  ⟨fun _ => rfl, h.2⟩

lemma inv_select (idx : Option Nat) (s : GameState) (h : StateInv s) :
    StateInv (setSelectedBoxIndexWeb idx s) := by
  unfold setSelectedBoxIndexWeb
  by_cases hp : s.gameStatus ≠ GameStatus.playing
  · rw [if_pos hp]; exact h
  · rw [if_neg hp]
    exact ⟨fun hne => absurd (not_not.mp hp) hne, h.2⟩

lemma inv_settings (wl : Option Nat) (hm : Option Bool) (ma : Option Nat)
    (s : GameState) (h : StateInv s)
    (hwl : wl = none ∨ wl = some 5 ∨ wl = some 6 ∨ wl = some 7) :
    StateInv (updateSettingsWeb wl hm ma s) := by
  refine ⟨h.1, ?_⟩
  rcases hwl with rfl | rfl | rfl | rfl
  · exact h.2
  · show (1 : Nat) ≤ 5; decide
  · show (1 : Nat) ≤ 6; decide
  · show (1 : Nat) ≤ 7; decide

lemma reach_inv : ∀ s : GameState, Reach s → StateInv s := by
  intro s h
  induction h with
  | init => exact ⟨fun _ => rfl, by decide⟩
  | newGame w _ ih => exact inv_newGame w _ ih
  | add ch _ ih => exact inv_addLetter ch _ ih
  | remove _ ih => exact inv_removeLetter _ ih
  | submit b _ ih => exact inv_submit b _ ih
  | select idx _ ih => exact inv_select idx _ ih
  | settings wl hm ma _ hwl ih => exact inv_settings wl hm ma _ ih hwl

/-- Claim C8: from every reachable state whose status is Won or Lost,
addLetter, removeLetter and submitGuess leave the game state unchanged. -/
theorem terminal_states_are_frozen :
    ∀ s : GameState, Reach s → s.gameStatus ≠ GameStatus.playing →
      ∀ (ch : Char) (b : Bool),
        addLetterWeb ch s = s ∧ removeLetterWeb s = s ∧ submitGuessWeb s b = s := by
  intro s hr hterm ch b
  have hinv := reach_inv s hr
  have hcg : s.currentGuess = "" := hinv.1 hterm
  have hwl : 1 ≤ s.settings.wordLength := hinv.2
  have h0 : s.currentGuess.length = 0 := by rw [hcg]; rfl
  refine ⟨?_, ?_, ?_⟩
  · unfold addLetterWeb; rw [if_pos hterm]
  · unfold removeLetterWeb; rw [if_pos hterm]
  · unfold submitGuessWeb
    rw [if_pos (show s.currentGuess.length ≠ s.settings.wordLength by omega)]

/-- A concrete terminal (Won) state reached by playing "kissa" against the
solution "kissa" from the initial state. -/
def c8TerminalState : GameState :=
  submitGuessWeb (addLetterWeb 'a' (addLetterWeb 's' (addLetterWeb 's'
    (addLetterWeb 'i' (addLetterWeb 'k' (startNewGameWeb "kissa" initialState)))))) true

/-- Witness for claim C8: the three operations fix the concrete reachable
Won state. -/
theorem terminal_states_are_frozen_witness :
    addLetterWeb 'x' c8TerminalState = c8TerminalState
    ∧ removeLetterWeb c8TerminalState = c8TerminalState
    ∧ submitGuessWeb c8TerminalState true = c8TerminalState :=
  terminal_states_are_frozen c8TerminalState
    (Reach.submit true (Reach.add 'a' (Reach.add 's' (Reach.add 's'
      (Reach.add 'i' (Reach.add 'k' (Reach.newGame "kissa" Reach.init)))))))
    (by decide) 'x' true

/-! ## Claims C3 and C7: code evaluated at the failing inputs -/

/-- A Playing state with empty pending input whose cursor sits on box 1
(the player clicked the second box before typing anything). -/
def c3SkipState : GameState :=
  ⟨"kissa", [], "", GameStatus.playing, ⟨5, false, 6⟩, [], some 1⟩

/-- Claim C3, evaluated at the failing input: with the cursor on box 1 of
an empty row, addLetter produces the pending input "a" — the typed letter
sits at string position 0, there is no character at position 1 (the join
of the guess array collapses the empty slot), even though the cursor
advances to box 2 as if the letter had been written at box 1. -/
theorem addLetter_skipped_box_misplaces :
    (addLetterWeb 'a' c3SkipState).currentGuess = "a"
    ∧ (addLetterWeb 'a' c3SkipState).currentGuess.toList[1]? ≠ some 'a'
    ∧ (addLetterWeb 'a' c3SkipState).currentGuess.toList[0]? = some 'a'
    ∧ (addLetterWeb 'a' c3SkipState).selectedBoxIndex = some 2 := by
  decide

/-- The per-length fallback solution words of `getRandomSolution` in the
web evaluation.ts (`\x7b 5: 'omena', 6: 'ajatus', 7: 'ajatus' \x7d` with
default 'omena'). -/
def fallbackWordWeb (wordLength : Nat) : String :=
  if wordLength = 5 then "omena"
  else if wordLength = 6 then "ajatus"
  else if wordLength = 7 then "ajatus"
  else "omena"

/-- The per-length fallback solution words of `getFallbackWord` in the
sanasto api.ts (`\x7b 5: 'omena', 6: 'ajatus', 7: 'ihminen' \x7d` with
default 'omena'). -/
def fallbackWordSanasto (wordLength : Nat) : String :=
  if wordLength = 5 then "omena"
  else if wordLength = 6 then "ajatus"
  else if wordLength = 7 then "ihminen"
  else "omena"

/-- Claim C7, evaluated at the failing input: on the failure path the web
fallback for word length 7 is "ajatus", a 6-letter word, so the solution
length does not match the configured length; the 5- and 6-letter web
fallbacks and all sanasto fallbacks do match. -/
theorem fallbackWord_length_mismatch :
    fallbackWordWeb 7 = "ajatus" ∧ (fallbackWordWeb 7).length = 6
    ∧ (fallbackWordWeb 5).length = 5 ∧ (fallbackWordWeb 6).length = 6
    ∧ (fallbackWordSanasto 5).length = 5 ∧ (fallbackWordSanasto 6).length = 6
    ∧ (fallbackWordSanasto 7).length = 7 := by
  decide
